import Mathlib

/-!
Shallow embedding of the versioned-document lifecycle engine found in
src/stores/documentsData.ts, together with theorems settling the frozen
claims about it.  Pure helpers (normalizeVersions and its synthesis) are
modelled as Lean functions; each store-mutating operation is modelled as a
state transformer on the target document record, with the persisted
update applied explicitly.  JavaScript truthiness and the or-else
operators are modelled by dedicated helpers.
-/

namespace DocStore

/-- One version entry (VersionEntry in the source).  The tags object is
modelled as an abstract token.  The v field is an integer, matching the
declared TypeScript type. -/
structure VersionEntry where
  v : Int
  file_url : Option String := none
  title : Option String := none
  contents : Option String := none
  tags : Option Nat := none
  status : Option String := none
  notes : Option String := none
  created_at : Option String := none
  created_by : Option String := none
deriving DecidableEq, Repr

/-- Shape of the stored version column of a document row: absent (or a
falsy value), a JSON array of entries, a single object carrying a numeric
v, a single legacy object without a numeric v (whose own payload
normalizeVersions ignores entirely), or a non-object value. -/
inductive VersionField where
  | undef
  | arr (vs : List VersionEntry)
  | objWithV (e : VersionEntry)
  | objNoV
  | other
deriving DecidableEq, Repr

/-- A document row (Document in the source). -/
structure Document where
  id : Int := 0
  created_at : String := ""
  user_id : Option String := none
  status : Option String := none
  title : Option String := none
  contents : Option String := none
  tags : Option Nat := none
  attach_file : Option String := none
  current_version : Option Int := none
  version : VersionField := .undef
  last_edited_by : Option String := none
  updated_at : Option String := none
deriving DecidableEq, Repr

/-- JavaScript a or-else b for an optional string and a string default:
undefined and the empty string are falsy. -/
def jsOrS (a : Option String) (b : String) : String :=
  match a with
  | some s => if s = "" then b else s
  | none => b

/-- JavaScript a or-else b where both sides are optional strings. -/
def jsOrOpt (a b : Option String) : Option String :=
  match a with
  | some s => if s = "" then b else some s
  | none => b

/-- JavaScript truthiness of an optional number: undefined and 0 are
falsy. -/
def truthyInt (a : Option Int) : Bool :=
  match a with
  | some n => n != 0
  | none => false

/-- JavaScript truthiness of an optional string: undefined and the empty
string are falsy. -/
def truthyStr (a : Option String) : Bool :=
  match a with
  | some s => s != ""
  | none => false

/-- JavaScript nullish coalescing a double-question b on optional
values. -/
def jsNullish {α : Type} (a b : Option α) : Option α :=
  match a with
  | some x => some x
  | none => b

/-- The expression: current_version if truthy and positive, else 1.  This
is the source pattern (doc.current_version and doc.current_version
greater than 0) question doc.current_version colon 1. -/
def posOr1 (cv : Option Int) : Int :=
  match cv with
  | some n => if 0 < n then n else 1
  | none => 1

/-- Per-character lowercase map, the model of toLowerCase().  It maps
Char.toLower over the character list directly, which (unlike the mapAux
loop inside String.toLower) the kernel can evaluate on literals. -/
def jsToLower (s : String) : String :=
  ⟨s.data.map Char.toLower⟩

/-- The source pattern (v.status or empty).toLowerCase(). -/
def statusLower (e : VersionEntry) : String :=
  jsToLower (e.status.getD "")

/-- Whether an entry counts as approved in the source comparisons. -/
def isApproved (e : VersionEntry) : Bool :=
  statusLower e == "approved"

/-- Whether an entry counts as pending in the source comparisons. -/
def isPending (e : VersionEntry) : Bool :=
  statusLower e == "pending"

/-- The single entry that normalizeVersions synthesizes from the fields of
the document itself, when the stored version value is a legacy object
without a numeric v. -/
def synthEntry (doc : Document) : VersionEntry :=
  { v := posOr1 doc.current_version
    file_url := doc.attach_file
    title := doc.title
    contents := doc.contents
    tags := doc.tags
    status := some (jsOrS doc.status "pending")
    notes := some "Initial import"
    created_at := some doc.created_at
    created_by := doc.user_id }

/-- normalizeVersions from the source: an array is returned unchanged, a
single object with a numeric v is wrapped in a one-element list, a legacy
object without a numeric v is replaced by the synthesized entry, and
anything else yields the empty list. -/
def normalizeVersions (doc : Document) : List VersionEntry :=
  match doc.version with
  | .undef => []
  | .arr vs => vs
  | .objWithV e => [e]
  | .objNoV => [synthEntry doc]
  | .other => []

/-- versions[idx] = (spread versions[idx], status): replace only the
status field of the entry at the given index. -/
def setStatusAt (st : String) : List VersionEntry → Nat → List VersionEntry
  | [], _ => []
  | e :: rest, 0 => { e with status := some st } :: rest
  | e :: rest, i + 1 => e :: setStatusAt st rest i

/-- versions.findIndex with the predicate (v.v or 0) === cv, as an
optional index. -/
def findMatchIdx (cv : Int) : List VersionEntry → Option Nat
  | [] => none
  | e :: rest =>
    if e.v == cv then some 0 else (findMatchIdx cv rest).map (· + 1)

/-- The fallback forEach scan of setCurrentVersionStatus: running maximum
seeded with -1, remembering the index of each strict improvement; the
result is the first index attaining the overall maximum, or none when
every v is at most the seed. -/
def fallbackScan : List VersionEntry → Int → Option Nat
  | [], _ => none
  | e :: rest, maxV =>
    if maxV < e.v then
      match fallbackScan rest e.v with
      | some j => some (j + 1)
      | none => some 0
    else (fallbackScan rest maxV).map (· + 1)

/-- Stable insertion into a list sorted by v descending. -/
def insertDescByV (e : VersionEntry) : List VersionEntry → List VersionEntry
  | [] => [e]
  | x :: xs => if x.v < e.v then e :: x :: xs else x :: insertDescByV e xs

/-- Model of versions.sort with comparator (b.v or 0) - (a.v or 0): a sort
of the list by v descending. -/
def sortDescByV : List VersionEntry → List VersionEntry
  | [] => []
  | x :: xs => insertDescByV x (sortDescByV xs)

/-- recomputeDocumentFromVersions as a transformer of the target document:
no write when the normalized collection is empty; otherwise the latest
approved entry (head of the approved entries sorted by v descending)
decides the aggregate fields, with the pending-versus-rejected choice
when no entry is approved.  The argument now stands for the ISO timestamp
taken during the write. -/
def recomputeDocumentFromVersions (now : String) (doc : Document) : Document :=
  let versions := normalizeVersions doc
  if versions.isEmpty then doc else
  let approvedSorted := sortDescByV (versions.filter isApproved)
  let latestApproved := approvedSorted.head?
  let nextStatus : String :=
    match latestApproved with
    | some _ => "approved"
    | none => if versions.any isPending then "pending" else "rejected"
  { doc with
    status := some nextStatus
    current_version :=
      match latestApproved with
      | some la => some la.v
      | none => doc.current_version
    attach_file :=
      match latestApproved with
      | some la => jsOrOpt la.file_url doc.attach_file
      | none => doc.attach_file
    updated_at := some now }

/-- The initial entry that seedInitialVersionForDocument builds from the
fields of the document itself. -/
def seedEntry (doc : Document) : VersionEntry :=
  { v := posOr1 doc.current_version
    file_url := doc.attach_file
    title := doc.title
    contents := doc.contents
    tags := doc.tags
    status := some (jsOrS doc.status "approved")
    notes := some "Initial import"
    created_at := some doc.created_at
    created_by := doc.user_id }

/-- seedInitialVersionForDocument: returns the updated document and the
version list the source returns.  Existing versions make it a no-op that
returns them; a missing (falsy) attach_file makes it a no-op that returns
the empty list; otherwise the seed entry is persisted as the whole
collection together with current_version. -/
def seedInitialVersionForDocument (now : String) (doc : Document) :
    Document × List VersionEntry :=
  let existing := normalizeVersions doc
  if 0 < existing.length then (doc, existing)
  else if truthyStr doc.attach_file = false then (doc, [])
  else
    let initial := seedEntry doc
    ({ doc with
        version := .arr [initial]
        current_version := some initial.v
        updated_at := some now }, [initial])

/-- The index selection of setCurrentVersionStatus: the findIndex match
against a truthy current_version, then the fallback forEach scan for the
highest v when no match was found. -/
def selectIdx (doc : Document) (versions : List VersionEntry) : Option Nat :=
  match (if truthyInt doc.current_version then
           findMatchIdx (doc.current_version.getD 0) versions
         else none) with
  | some i => some i
  | none => fallbackScan versions (-1)

/-- setCurrentVersionStatus: pick the entry matching a truthy
current_version, else fall back to the forEach scan for the highest v;
silently do nothing when the collection is empty or the scan finds
nothing; otherwise persist the collection with only that entry, and only
its status field, replaced. -/
def setCurrentVersionStatus (now st : String) (doc : Document) : Document :=
  let versions := normalizeVersions doc
  if versions.isEmpty then doc else
  match selectIdx doc versions with
  | none => doc
  | some i =>
    { doc with
        version := .arr (setStatusAt st versions i)
        updated_at := some now }

/-- Caller-supplied metadata overrides of createNewDocumentVersion. -/
structure VersionMetadata where
  title : Option String := none
  contents : Option String := none
  tags : Option Nat := none
  notes : Option String := none
deriving DecidableEq, Repr

/-- createNewDocumentVersion as a transformer of the target document,
returning the updated document and the version number assigned to the new
entry.  A supplied file is modelled by fileUrl, the stable reference the
storage collaborator returned for it (none when no file is passed); uid
is the current actor and now the ISO timestamp of the call. -/
def createNewDocumentVersion (now : String) (uid : Option String)
    (fileUrl : Option String) (metadata : Option VersionMetadata)
    (doc : Document) : Document × Int :=
  let nextV : Int := doc.current_version.getD 0 + 1
  let mTitle : Option String :=
    match metadata with | some m => m.title | none => none
  let newEntry : VersionEntry :=
    { v := nextV
      file_url := jsOrOpt fileUrl doc.attach_file
      title := jsNullish mTitle doc.title
      contents :=
        jsNullish (match metadata with | some m => m.contents | none => none)
          doc.contents
      tags :=
        jsNullish (match metadata with | some m => m.tags | none => none)
          doc.tags
      status := some "pending"
      notes := match metadata with | some m => m.notes | none => none
      created_at := some now
      created_by := uid }
  let newVersions := normalizeVersions doc ++ [newEntry]
  ({ doc with
      version := .arr newVersions
      current_version := some nextV
      attach_file := newEntry.file_url
      status := some "pending"
      last_edited_by := jsNullish uid doc.last_edited_by
      updated_at := some now
      title := if truthyStr mTitle then mTitle else doc.title }, nextV)

/-- Parameters of one createNewDocumentVersion call. -/
structure CreateCall where
  now : String := ""
  uid : Option String := none
  fileUrl : Option String := none
  metadata : Option VersionMetadata := none
deriving DecidableEq, Repr

/-- A sequence of consecutive createNewDocumentVersion calls against the
same document, collecting the version numbers assigned in order. -/
def runCreates (doc : Document) : List CreateCall → Document × List Int
  | [] => (doc, [])
  | c :: rest =>
    let r := createNewDocumentVersion c.now c.uid c.fileUrl c.metadata doc
    let rr := runCreates r.1 rest
    (rr.1, r.2 :: rr.2)

/-- versions.findIndex by a predicate, returning the index together with
the entry found. -/
def findIdxEntry (p : VersionEntry → Bool) :
    List VersionEntry → Option (Nat × VersionEntry)
  | [] => none
  | e :: rest =>
    if p e then some (0, e)
    else (findIdxEntry p rest).map (fun q => (q.1 + 1, q.2))

/-- approveVersion as a transformer of the target document; the boolean is
whether a version with the requested number was found (the source returns
the empty list without writing when it is false).  On success the entry
status becomes approved and the document is repointed to it. -/
def approveVersion (now : String) (versionNumber : Int) (doc : Document) :
    Document × Bool :=
  let versions := normalizeVersions doc
  match findIdxEntry (fun e => e.v == versionNumber) versions with
  | none => (doc, false)
  | some (idx, e) =>
    ({ doc with
        version := .arr (setStatusAt "approved" versions idx)
        current_version := some versionNumber
        attach_file := jsOrOpt e.file_url doc.attach_file
        status := some "approved"
        updated_at := some now }, true)

/-- rejectVersion as a transformer of the target document; the boolean is
whether a version with the requested number was found.  On success the
entry status becomes rejected, the collection is persisted, and the
aggregate fields are recomputed from the versions. -/
def rejectVersion (now : String) (versionNumber : Int) (doc : Document) :
    Document × Bool :=
  let versions := normalizeVersions doc
  match findIdxEntry (fun e => e.v == versionNumber) versions with
  | none => (doc, false)
  | some (idx, _) =>
    let doc2 : Document :=
      { doc with
          version := .arr (setStatusAt "rejected" versions idx)
          updated_at := some now }
    (recomputeDocumentFromVersions now doc2, true)

/-- The pointer invariant of the data model: when the normalized version
collection is non-empty, current_version equals the v of some entry. -/
def cvInv (doc : Document) : Prop :=
  normalizeVersions doc = [] ∨
    ∃ e ∈ normalizeVersions doc, doc.current_version = some e.v

instance (doc : Document) : Decidable (cvInv doc) := by
  unfold cvInv; infer_instance

/-- The version numbers of the normalized collection of a document, in
collection order. -/
def vList (doc : Document) : List Int :=
  (normalizeVersions doc).map VersionEntry.v

/-- Document refuting claim C1 as stated: its only (approved) version has
no file_url, so recompute keeps the old attach_file instead of taking the
one of the approved version. -/
def cexDoc1 : Document :=
  { attach_file := some "old.pdf", current_version := some 1,
    version := .arr [{ v := 1, status := some "approved" }] }

/-- Document for the witness of the amended claim C1. -/
def wDoc1 : Document :=
  { attach_file := some "a0", current_version := some 2,
    version := .arr [{ v := 1, status := some "approved", file_url := some "f1" },
                     { v := 2, status := some "pending", file_url := some "f2" }] }

/-- First version entry of the concrete two-version documents used for
claim C2. -/
def cexE1 : VersionEntry := { v := 1, status := some "approved" }

/-- Second version entry of the concrete two-version documents used for
claim C2. -/
def cexE2 : VersionEntry :=
  { v := 2, status := some "approved", file_url := some "f2" }

/-- Document refuting claim C2 as stated: version 1 is approved but has no
file_url, so rejecting version 2 keeps the old attach_file. -/
def cexDoc2 : Document :=
  { attach_file := some "f2", current_version := some 2,
    status := some "approved", version := .arr [cexE1, cexE2] }

/-- First version entry of the witness document of claim C2. -/
def wE1 : VersionEntry :=
  { v := 1, status := some "approved", file_url := some "g1" }

/-- Second version entry of the witness document of claim C2. -/
def wE2 : VersionEntry :=
  { v := 2, status := some "approved", file_url := some "g2" }

/-- Document for the witness of the amended claim C2. -/
def wDoc2 : Document :=
  { attach_file := some "g2", current_version := some 2,
    status := some "approved", version := .arr [wE1, wE2] }

/-- Document refuting claim C3 as stated: a document exactly as the
submission dialog creates it, with current_version 1 and a legacy version
object, so the first created version is numbered 2. -/
def cexDoc3 : Document :=
  { current_version := some 1, status := some "pending",
    contents := some "ocr", version := .objNoV }

/-- Document for the witness of the amended claim C3: no current_version
yet, so created versions are numbered from 1. -/
def wDoc3 : Document := {}

/-- Document refuting the never-reused part of claim C3: it holds versions
1 and 2 and points at 2; approving version 1 moves current_version back
to 1, after which the next created version is numbered 2 again, although
2 is already assigned. -/
def cexDoc3b : Document :=
  { current_version := some 2, attach_file := some "b",
    version := .arr [{ v := 1, status := some "approved", file_url := some "b1" },
                     { v := 2, status := some "pending" }] }

/-- Document refuting claim C4 as stated: a stale current_version pointer
that the pending branch of recompute leaves in place. -/
def cexDoc4 : Document :=
  { current_version := some 5,
    version := .arr [{ v := 1, status := some "pending" }] }

/-- Document for the witness of the amended claim C4: the pointer
invariant holds before the operation. -/
def wDoc4 : Document :=
  { current_version := some 2, attach_file := some "w4",
    version := .arr [{ v := 1, status := some "approved", file_url := some "w41" },
                     { v := 2, status := some "pending" }] }

/-- Document refuting claim C5 as stated: a legacy document with a file
but no status, where seeding defaults the entry status to approved while
the normalizer synthesis defaults it to pending. -/
def cexDoc5 : Document := { attach_file := some "legacy.pdf" }

/-- Document for the witness of the amended claim C5: carries a non-empty
status, so the seeded entry and the synthesized entry agree. -/
def wDoc5 : Document :=
  { attach_file := some "legacy.pdf", status := some "pending" }

/-- Document refuting claim C6 as stated: its status is rejected, which
the synthesis copies into the entry instead of defaulting to pending. -/
def cexDoc6 : Document := { status := some "rejected", version := .objNoV }

/-- Document for the witness of the amended claim C6. -/
def wDoc6 : Document :=
  { status := some "approved", current_version := some 3,
    title := some "T", attach_file := some "f6", version := .objNoV }

/-- Document for the witness of claim C8. -/
def wDoc8 : Document :=
  { current_version := some 1,
    version := .arr [{ v := 1, status := some "pending" }] }

/-- Document refuting claim C9 as stated: a non-empty collection whose
only v is negative and no current_version match, so the fallback scan
(seeded with -1) selects nothing and the call silently does nothing. -/
def cexDoc9 : Document :=
  { version := .arr [{ v := -1, status := some "pending" }] }

/-- Document for the witness of the amended claim C9. -/
def wDoc9 : Document :=
  { current_version := some 2,
    version := .arr [{ v := 1, status := some "approved" },
                     { v := 2, status := some "pending" }] }

/-- Version entry of the witness document of claim C10. -/
def wE10 : VersionEntry := { v := 4, status := some "pending", file_url := some "u" }

/-- Document for the witness of claim C10: a single stored object that
does carry a numeric v. -/
def wDoc10 : Document := { version := .objWithV wE10 }

/-- Statement of the (amended) claim C1, as a predicate of the document
and the timestamp: the priority policy of recompute, with attach_file
taken from the winning approved version only when its file_url is
non-empty (jsOrOpt), and otherwise left unchanged. -/
def recomputePolicyP (now : String) (doc : Document) : Prop :=
  if (normalizeVersions doc).any isApproved then
    (recomputeDocumentFromVersions now doc).status = some "approved" ∧
    ∃ la ∈ normalizeVersions doc, isApproved la = true ∧
      (∀ e ∈ normalizeVersions doc, isApproved e = true → e.v ≤ la.v) ∧
      (recomputeDocumentFromVersions now doc).current_version = some la.v ∧
      (recomputeDocumentFromVersions now doc).attach_file =
        jsOrOpt la.file_url doc.attach_file
  else if (normalizeVersions doc).any isPending then
    (recomputeDocumentFromVersions now doc).status = some "pending" ∧
    (recomputeDocumentFromVersions now doc).current_version =
      doc.current_version ∧
    (recomputeDocumentFromVersions now doc).attach_file = doc.attach_file
  else
    (recomputeDocumentFromVersions now doc).status = some "rejected" ∧
    (recomputeDocumentFromVersions now doc).current_version =
      doc.current_version ∧
    (recomputeDocumentFromVersions now doc).attach_file = doc.attach_file

/-- Statement of the (amended) claim C5: what seeding persists and
returns, and how the seeded entry compares, field by field, with the
entry the normalizer would synthesize: all fields agree except status,
where seeding defaults to approved and the normalizer to pending, the two
agreeing whenever the document carries a truthy status. -/
def seedSynthP (now : String) (doc : Document) : Prop :=
  (seedInitialVersionForDocument now doc).2 = [seedEntry doc] ∧
  (seedInitialVersionForDocument now doc).1.version = .arr [seedEntry doc] ∧
  (seedEntry doc).v = (synthEntry doc).v ∧
  (seedEntry doc).file_url = (synthEntry doc).file_url ∧
  (seedEntry doc).title = (synthEntry doc).title ∧
  (seedEntry doc).contents = (synthEntry doc).contents ∧
  (seedEntry doc).tags = (synthEntry doc).tags ∧
  (seedEntry doc).notes = (synthEntry doc).notes ∧
  (seedEntry doc).created_at = (synthEntry doc).created_at ∧
  (seedEntry doc).created_by = (synthEntry doc).created_by ∧
  (seedEntry doc).status = some (jsOrS doc.status "approved") ∧
  (synthEntry doc).status = some (jsOrS doc.status "pending") ∧
  (truthyStr doc.status = true → seedEntry doc = synthEntry doc)

/-- Statement of the (amended) claim C9: setCurrentVersionStatus is a
silent no-op on an empty collection, and also when no entry matches a
truthy current_version and every v is negative (the fallback scan starts
at -1); otherwise it writes back the collection with exactly the selected
entry status replaced, the selected entry being the current_version match
when one exists and the first entry with the highest v otherwise. -/
def setStatusSpecP (now st : String) (doc : Document) : Prop :=
  (normalizeVersions doc = [] → setCurrentVersionStatus now st doc = doc) ∧
  ((∀ e ∈ normalizeVersions doc, e.v ≤ -1) →
    ¬ (truthyInt doc.current_version = true ∧
        ∃ e ∈ normalizeVersions doc, e.v = doc.current_version.getD 0) →
    setCurrentVersionStatus now st doc = doc) ∧
  (normalizeVersions doc ≠ [] →
    ((truthyInt doc.current_version = true ∧
        ∃ e ∈ normalizeVersions doc, e.v = doc.current_version.getD 0) ∨
      ∃ e ∈ normalizeVersions doc, 0 ≤ e.v) →
    ∃ i, ∃ hi : i < (normalizeVersions doc).length,
      setCurrentVersionStatus now st doc =
        { doc with version := .arr (setStatusAt st (normalizeVersions doc) i)
                   updated_at := some now } ∧
      (if truthyInt doc.current_version = true ∧
          ∃ e ∈ normalizeVersions doc, e.v = doc.current_version.getD 0
       then ((normalizeVersions doc).get ⟨i, hi⟩).v =
              doc.current_version.getD 0
       else ∀ e ∈ normalizeVersions doc,
              e.v ≤ ((normalizeVersions doc).get ⟨i, hi⟩).v))

theorem jsOrOpt_self (x : Option String) : jsOrOpt x x = x := by
  cases x <;> simp [jsOrOpt]

theorem jsOrOpt_absorb (x y : Option String) :
    jsOrOpt x (jsOrOpt x y) = jsOrOpt x y := by
  cases x with
  | none => rfl
  | some s => by_cases h : s = "" <;> simp [jsOrOpt, h]

theorem posOr1_pos (cv : Option Int) : 0 < posOr1 cv := by
  cases cv with
  | none => norm_num [posOr1]
  | some n =>
    simp only [posOr1]
    split
    · rename_i h; exact h
    · norm_num

theorem posOr1_posOr1 (cv : Option Int) :
    posOr1 (some (posOr1 cv)) = posOr1 cv := by
  have h := posOr1_pos cv
  show (if 0 < posOr1 cv then posOr1 cv else 1) = posOr1 cv
  simp [h]

theorem mem_insertDescByV {a e : VersionEntry} {l : List VersionEntry} :
    a ∈ insertDescByV e l ↔ a = e ∨ a ∈ l := by
  induction l with
  | nil => simp [insertDescByV]
  | cons x xs ih =>
    unfold insertDescByV
    split
    · simp [List.mem_cons]
    · simp only [List.mem_cons, ih]
      tauto

theorem insertDescByV_ne_nil (e : VersionEntry) (l : List VersionEntry) :
    insertDescByV e l ≠ [] := by
  cases l with
  | nil => simp [insertDescByV]
  | cons x xs =>
    unfold insertDescByV
    split <;> simp

theorem sortDescByV_eq_nil {l : List VersionEntry} :
    sortDescByV l = [] ↔ l = [] := by
  cases l with
  | nil => simp [sortDescByV]
  | cons x xs =>
    simp only [sortDescByV]
    constructor
    · intro h
      exact absurd h (insertDescByV_ne_nil x (sortDescByV xs))
    · intro h
      exact absurd h (List.cons_ne_nil x xs)

theorem sortDescByV_head_max {l : List VersionEntry} {la : VersionEntry}
    {rest : List VersionEntry} (h : sortDescByV l = la :: rest) :
    la ∈ l ∧ ∀ e ∈ l, e.v ≤ la.v := by
  induction l generalizing la rest with
  | nil => simp [sortDescByV] at h
  | cons x xs ih =>
    rw [sortDescByV] at h
    cases hs : sortDescByV xs with
    | nil =>
      rw [hs] at h
      have hxs : xs = [] := sortDescByV_eq_nil.mp hs
      simp only [insertDescByV, List.cons.injEq] at h
      obtain ⟨h1, _⟩ := h
      subst h1
      subst hxs
      refine ⟨List.mem_cons_self _ _, ?_⟩
      intro e he
      rcases List.mem_cons.mp he with h2 | h2
      · subst h2; exact le_refl _
      · simp at h2
    | cons y ys =>
      rw [hs] at h
      obtain ⟨hy_mem, hy_max⟩ := ih hs
      unfold insertDescByV at h
      split at h
      · rename_i hlt
        rw [List.cons.injEq] at h
        obtain ⟨h1, _⟩ := h
        subst h1
        refine ⟨List.mem_cons_self _ _, ?_⟩
        intro e he
        rcases List.mem_cons.mp he with h2 | h2
        · subst h2; exact le_refl _
        · exact le_trans (hy_max e h2) (le_of_lt hlt)
      · rename_i hge
        rw [List.cons.injEq] at h
        obtain ⟨h1, _⟩ := h
        subst h1
        refine ⟨List.mem_cons_of_mem _ hy_mem, ?_⟩
        intro e he
        rcases List.mem_cons.mp he with h2 | h2
        · subst h2; exact le_of_not_lt hge
        · exact hy_max e h2

theorem latestApproved_spec {vs : List VersionEntry} {la : VersionEntry}
    (h : (sortDescByV (vs.filter isApproved)).head? = some la) :
    la ∈ vs ∧ isApproved la = true ∧
      ∀ e ∈ vs, isApproved e = true → e.v ≤ la.v := by
  cases hs : sortDescByV (vs.filter isApproved) with
  | nil => rw [hs] at h; simp at h
  | cons x rest =>
    rw [hs] at h
    simp only [List.head?_cons, Option.some.injEq] at h
    subst h
    obtain ⟨hmem, hmax⟩ := sortDescByV_head_max hs
    obtain ⟨hmem2, happ⟩ := List.mem_filter.mp hmem
    refine ⟨hmem2, happ, ?_⟩
    intro e he hae
    exact hmax e (List.mem_filter.mpr ⟨he, hae⟩)

theorem latestApproved_none {vs : List VersionEntry}
    (h : (sortDescByV (vs.filter isApproved)).head? = none) :
    ∀ e ∈ vs, isApproved e = false := by
  rw [List.head?_eq_none_iff] at h
  have hf : vs.filter isApproved = [] := sortDescByV_eq_nil.mp h
  intro e he
  by_contra hne
  have : e ∈ vs.filter isApproved :=
    List.mem_filter.mpr ⟨he, by revert hne; cases isApproved e <;> simp⟩
  rw [hf] at this
  simp at this

theorem setStatusAt_map_v (st : String) (l : List VersionEntry) (i : Nat) :
    (setStatusAt st l i).map VersionEntry.v = l.map VersionEntry.v := by
  induction l generalizing i with
  | nil => rfl
  | cons e rest ih =>
    cases i with
    | zero => simp [setStatusAt]
    | succ j => simp [setStatusAt, ih]

theorem findMatchIdx_eq_none {cv : Int} {l : List VersionEntry} :
    findMatchIdx cv l = none ↔ ∀ e ∈ l, e.v ≠ cv := by
  induction l with
  | nil => simp [findMatchIdx]
  | cons e rest ih =>
    unfold findMatchIdx
    split
    · rename_i heq
      simp only [beq_iff_eq] at heq
      simp [heq]
    · rename_i hne
      simp only [beq_iff_eq] at hne
      simp [Option.map_eq_none', ih, hne]

theorem findMatchIdx_eq_some {cv : Int} {l : List VersionEntry} {i : Nat}
    (h : findMatchIdx cv l = some i) :
    ∃ hi : i < l.length, (l.get ⟨i, hi⟩).v = cv := by
  induction l generalizing i with
  | nil => simp [findMatchIdx] at h
  | cons e rest ih =>
    unfold findMatchIdx at h
    split at h
    · rename_i heq
      simp only [beq_iff_eq] at heq
      simp only [Option.some.injEq] at h
      subst h
      exact ⟨by simp, heq⟩
    · cases hr : findMatchIdx cv rest with
      | none => rw [hr] at h; simp at h
      | some j =>
        rw [hr] at h
        simp only [Option.map_some', Option.some.injEq] at h
        subst h
        obtain ⟨hj, hv⟩ := ih hr
        exact ⟨by simpa using Nat.succ_lt_succ hj, by simpa using hv⟩

theorem fallbackScan_eq_none {l : List VersionEntry} {m : Int} :
    fallbackScan l m = none ↔ ∀ e ∈ l, e.v ≤ m := by
  induction l generalizing m with
  | nil => simp [fallbackScan]
  | cons e rest ih =>
    unfold fallbackScan
    split
    · rename_i hlt
      constructor
      · intro hnone
        cases hr : fallbackScan rest e.v <;> rw [hr] at hnone <;> simp at hnone
      · intro hall
        exact absurd (hall e (List.mem_cons_self _ _)) (not_le.mpr hlt)
    · rename_i hge
      rw [Option.map_eq_none', ih]
      simp [List.forall_mem_cons, le_of_not_lt hge]

theorem fallbackScan_eq_some {l : List VersionEntry} {m : Int} {i : Nat}
    (h : fallbackScan l m = some i) :
    ∃ hi : i < l.length,
      m < (l.get ⟨i, hi⟩).v ∧ ∀ e ∈ l, e.v ≤ (l.get ⟨i, hi⟩).v := by
  induction l generalizing m i with
  | nil => simp [fallbackScan] at h
  | cons e rest ih =>
    unfold fallbackScan at h
    split at h
    · rename_i hlt
      cases hr : fallbackScan rest e.v with
      | none =>
        rw [hr] at h
        simp only [Option.some.injEq] at h
        subst h
        have hall : ∀ x ∈ rest, x.v ≤ e.v := fallbackScan_eq_none.mp hr
        refine ⟨by simp, by simpa using hlt, ?_⟩
        intro x hx
        rcases List.mem_cons.mp hx with h2 | h2
        · subst h2; simp
        · simpa using hall x h2
      | some j =>
        rw [hr] at h
        simp only [Option.map_some', Option.some.injEq] at h
        subst h
        obtain ⟨hj, hgt, hmax⟩ := ih hr
        refine ⟨by simpa using Nat.succ_lt_succ hj, ?_, ?_⟩
        · simpa using lt_trans hlt hgt
        · intro x hx
          rcases List.mem_cons.mp hx with h2 | h2
          · subst h2; simpa using le_of_lt hgt
          · simpa using hmax x h2
    · rename_i hge
      cases hr : fallbackScan rest m with
      | none => rw [hr] at h; simp at h
      | some j =>
        rw [hr] at h
        simp only [Option.map_some', Option.some.injEq] at h
        subst h
        obtain ⟨hj, hgt, hmax⟩ := ih hr
        refine ⟨by simpa using Nat.succ_lt_succ hj, by simpa using hgt, ?_⟩
        intro x hx
        rcases List.mem_cons.mp hx with h2 | h2
        · subst h2
          simpa using le_trans (le_of_not_lt hge) (le_of_lt hgt)
        · simpa using hmax x h2

theorem findIdxEntry_eq_none {p : VersionEntry → Bool}
    {l : List VersionEntry} :
    findIdxEntry p l = none ↔ ∀ e ∈ l, p e = false := by
  induction l with
  | nil => simp [findIdxEntry]
  | cons e rest ih =>
    unfold findIdxEntry
    split
    · rename_i hp
      simp [hp]
    · rename_i hp
      simp only [Bool.not_eq_true] at hp
      simp [Option.map_eq_none', ih, hp]

theorem findIdxEntry_eq_some {p : VersionEntry → Bool}
    {l : List VersionEntry} {i : Nat} {e : VersionEntry}
    (h : findIdxEntry p l = some (i, e)) : e ∈ l ∧ p e = true := by
  induction l generalizing i with
  | nil => simp [findIdxEntry] at h
  | cons x rest ih =>
    unfold findIdxEntry at h
    split at h
    · rename_i hp
      simp only [Option.some.injEq, Prod.mk.injEq] at h
      obtain ⟨_, h2⟩ := h
      subst h2
      exact ⟨List.mem_cons_self _ _, hp⟩
    · cases hr : findIdxEntry p rest with
      | none => rw [hr] at h; simp at h
      | some q =>
        rw [hr] at h
        simp only [Option.map_some', Option.some.injEq] at h
        obtain ⟨hmem, hp⟩ := ih (i := q.1) (by rw [hr]; cases h; rfl)
        have he : e = q.2 := by cases h; rfl
        subst he
        exact ⟨List.mem_cons_of_mem _ hmem, hp⟩

theorem recompute_of_empty (doc : Document) (now : String)
    (h : normalizeVersions doc = []) :
    recomputeDocumentFromVersions now doc = doc := by
  unfold recomputeDocumentFromVersions
  simp [h]

theorem recompute_eq_of_ne_nil (doc : Document) (now : String)
    (h : normalizeVersions doc ≠ []) :
    recomputeDocumentFromVersions now doc =
      match (sortDescByV ((normalizeVersions doc).filter isApproved)).head? with
      | some la =>
        { doc with
            status := some "approved"
            current_version := some la.v
            attach_file := jsOrOpt la.file_url doc.attach_file
            updated_at := some now }
      | none =>
        { doc with
            status := some (if (normalizeVersions doc).any isPending
                            then "pending" else "rejected")
            updated_at := some now } := by
  have hie : (normalizeVersions doc).isEmpty = false := by
    cases hv : normalizeVersions doc
    · exact absurd hv h
    · rfl
  unfold recomputeDocumentFromVersions
  simp only [hie, Bool.false_eq_true, if_false]
  cases hla : (sortDescByV ((normalizeVersions doc).filter isApproved)).head? <;>
    simp [hla]

theorem recompute_version_eq (doc : Document) (now : String) :
    (recomputeDocumentFromVersions now doc).version = doc.version := by
  by_cases h : normalizeVersions doc = []
  · rw [recompute_of_empty doc now h]
  · rw [recompute_eq_of_ne_nil doc now h]
    cases (sortDescByV ((normalizeVersions doc).filter isApproved)).head? <;> rfl

theorem normalize_recompute_of_not_objNoV (doc : Document) (now : String)
    (h : doc.version ≠ VersionField.objNoV) :
    normalizeVersions (recomputeDocumentFromVersions now doc) =
      normalizeVersions doc := by
  have hv := recompute_version_eq doc now
  cases hvv : doc.version with
  | objNoV => exact absurd hvv h
  | undef => simp [normalizeVersions, hv, hvv]
  | arr vs => simp [normalizeVersions, hv, hvv]
  | objWithV e => simp [normalizeVersions, hv, hvv]
  | other => simp [normalizeVersions, hv, hvv]

theorem normalize_objNoV (doc : Document)
    (h : doc.version = VersionField.objNoV) :
    normalizeVersions doc = [synthEntry doc] := by
  simp [normalizeVersions, h]

theorem vList_recompute (doc : Document) (now : String) :
    vList (recomputeDocumentFromVersions now doc) = vList doc := by
  by_cases h : normalizeVersions doc = []
  · rw [recompute_of_empty doc now h]
  · by_cases hno : doc.version = VersionField.objNoV
    · have hnd := normalize_objNoV doc hno
      rw [recompute_eq_of_ne_nil doc now h]
      cases hla : (sortDescByV ((normalizeVersions doc).filter isApproved)).head? with
      | none =>
        simp [vList, normalizeVersions, hno, synthEntry]
      | some la =>
        have hla2 := latestApproved_spec hla
        have hmem := hla2.1
        rw [hnd] at hmem
        have hle : la = synthEntry doc := by simpa using hmem
        subst hle
        simp [vList, normalizeVersions, hno, synthEntry, posOr1_posOr1]
    · unfold vList
      rw [normalize_recompute_of_not_objNoV doc now hno]

theorem setCurrentVersionStatus_cases (doc : Document) (now st : String) :
    setCurrentVersionStatus now st doc = doc ∨
    ∃ i, setCurrentVersionStatus now st doc =
      { doc with version := .arr (setStatusAt st (normalizeVersions doc) i)
                 updated_at := some now } := by
  unfold setCurrentVersionStatus
  dsimp only
  split
  · exact Or.inl rfl
  · split
    · exact Or.inl rfl
    · rename_i i heq
      exact Or.inr ⟨i, rfl⟩

theorem cvInv_transfer (d1 d2 : Document) (hm : vList d2 = vList d1)
    (hc : d2.current_version = d1.current_version) (h : cvInv d1) :
    cvInv d2 := by
  cases h with
  | inl h0 =>
    left
    have h2 : vList d2 = [] := by rw [hm]; simp [vList, h0]
    exact List.map_eq_nil_iff.mp h2
  | inr h1 =>
    obtain ⟨e, he, hcv⟩ := h1
    have hmem : e.v ∈ vList d1 := List.mem_map_of_mem _ he
    rw [← hm] at hmem
    obtain ⟨e2, he2, hv2⟩ := List.mem_map.mp hmem
    right
    exact ⟨e2, he2, by rw [hc, hcv, hv2]⟩

theorem create_cv (now : String) (uid fu : Option String)
    (md : Option VersionMetadata) (doc : Document) :
    (createNewDocumentVersion now uid fu md doc).1.current_version =
      some (doc.current_version.getD 0 + 1) := rfl

theorem create_assigned (now : String) (uid fu : Option String)
    (md : Option VersionMetadata) (doc : Document) :
    (createNewDocumentVersion now uid fu md doc).2 =
      doc.current_version.getD 0 + 1 := rfl

theorem vList_create (now : String) (uid fu : Option String)
    (md : Option VersionMetadata) (doc : Document) :
    vList (createNewDocumentVersion now uid fu md doc).1 =
      vList doc ++ [doc.current_version.getD 0 + 1] := by
  simp [vList, createNewDocumentVersion, normalizeVersions]

theorem runCreates_assigned (doc : Document) (calls : List CreateCall) :
    (runCreates doc calls).2 =
      (List.range calls.length).map
        (fun i : Nat => doc.current_version.getD 0 + ((i : Int) + 1)) := by
  induction calls generalizing doc with
  | nil => simp [runCreates]
  | cons c rest ih =>
    simp only [runCreates]
    rw [ih, create_assigned, create_cv]
    simp only [Option.getD_some, List.length_cons, List.range_succ_eq_map,
      List.map_cons, List.map_map]
    rw [List.cons.injEq]
    constructor
    · norm_num
    · apply List.map_congr_left
      intro i hi
      simp only [Function.comp_apply]
      push_cast
      ring

theorem seed_cases (now : String) (doc : Document) :
    seedInitialVersionForDocument now doc = (doc, normalizeVersions doc) ∨
    seedInitialVersionForDocument now doc = (doc, []) ∨
    (normalizeVersions doc = [] ∧
      seedInitialVersionForDocument now doc =
        ({ doc with version := .arr [seedEntry doc]
                    current_version := some (seedEntry doc).v
                    updated_at := some now }, [seedEntry doc])) := by
  unfold seedInitialVersionForDocument
  dsimp only
  split
  · exact Or.inl rfl
  · rename_i hlen
    split
    · exact Or.inr (Or.inl rfl)
    · refine Or.inr (Or.inr ⟨?_, rfl⟩)
      have h0 : (normalizeVersions doc).length = 0 := by omega
      exact List.length_eq_zero.mp h0

theorem approve_cases (now : String) (n : Int) (doc : Document) :
    (findIdxEntry (fun x => x.v == n) (normalizeVersions doc) = none ∧
      approveVersion now n doc = (doc, false)) ∨
    ∃ idx e, findIdxEntry (fun x => x.v == n) (normalizeVersions doc) =
        some (idx, e) ∧
      approveVersion now n doc =
        ({ doc with
            version := .arr (setStatusAt "approved" (normalizeVersions doc) idx)
            current_version := some n
            attach_file := jsOrOpt e.file_url doc.attach_file
            status := some "approved"
            updated_at := some now }, true) := by
  unfold approveVersion
  dsimp only
  split
  · rename_i heq
    exact Or.inl ⟨heq, rfl⟩
  · rename_i idx e heq
    exact Or.inr ⟨idx, e, heq, rfl⟩

theorem reject_cases (now : String) (n : Int) (doc : Document) :
    (findIdxEntry (fun x => x.v == n) (normalizeVersions doc) = none ∧
      rejectVersion now n doc = (doc, false)) ∨
    ∃ idx e, findIdxEntry (fun x => x.v == n) (normalizeVersions doc) =
        some (idx, e) ∧
      rejectVersion now n doc =
        (recomputeDocumentFromVersions now
          { doc with
              version := .arr (setStatusAt "rejected" (normalizeVersions doc) idx)
              updated_at := some now }, true) := by
  unfold rejectVersion
  dsimp only
  split
  · rename_i heq
    exact Or.inl ⟨heq, rfl⟩
  · rename_i idx e heq
    exact Or.inr ⟨idx, e, heq, rfl⟩

theorem vList_setCurrentVersionStatus (doc : Document) (now st : String) :
    vList (setCurrentVersionStatus now st doc) = vList doc := by
  rcases setCurrentVersionStatus_cases doc now st with h | ⟨i, h⟩
  · rw [h]
  · rw [h]
    exact setStatusAt_map_v st (normalizeVersions doc) i

theorem setCurrentVersionStatus_cv (doc : Document) (now st : String) :
    (setCurrentVersionStatus now st doc).current_version =
      doc.current_version := by
  rcases setCurrentVersionStatus_cases doc now st with h | ⟨i, h⟩ <;> rw [h]

theorem vList_seed (doc : Document) (now : String) :
    vList doc <+: vList (seedInitialVersionForDocument now doc).1 := by
  rcases seed_cases now doc with h | h | ⟨hn, h⟩
  · simp [h]
  · simp [h]
  · rw [h]
    simp only [vList, hn, List.map_nil]
    exact List.nil_prefix

theorem vList_approve (doc : Document) (now : String) (n : Int) :
    vList (approveVersion now n doc).1 = vList doc := by
  rcases approve_cases now n doc with ⟨_, h⟩ | ⟨idx, e, heq, h⟩
  · simp [h]
  · rw [h]
    exact setStatusAt_map_v "approved" (normalizeVersions doc) idx

theorem vList_reject (doc : Document) (now : String) (n : Int) :
    vList (rejectVersion now n doc).1 = vList doc := by
  rcases reject_cases now n doc with ⟨_, h⟩ | ⟨idx, e, heq, h⟩
  · simp [h]
  · rw [h]
    show vList (recomputeDocumentFromVersions now _) = _
    rw [vList_recompute]
    exact setStatusAt_map_v "rejected" (normalizeVersions doc) idx

theorem cvInv_recompute (doc : Document) (now : String) (h : cvInv doc) :
    cvInv (recomputeDocumentFromVersions now doc) := by
  by_cases he : normalizeVersions doc = []
  · rw [recompute_of_empty doc now he]; exact h
  · cases hla : (sortDescByV ((normalizeVersions doc).filter isApproved)).head? with
    | none =>
      have hcveq : (recomputeDocumentFromVersions now doc).current_version =
          doc.current_version := by
        rw [recompute_eq_of_ne_nil doc now he, hla]
      exact cvInv_transfer doc _ (vList_recompute doc now) hcveq h
    | some la =>
      right
      have hcveq : (recomputeDocumentFromVersions now doc).current_version =
          some la.v := by
        rw [recompute_eq_of_ne_nil doc now he, hla]
      have hspec := latestApproved_spec hla
      have hv : la.v ∈ vList doc := List.mem_map_of_mem _ hspec.1
      rw [← vList_recompute doc now] at hv
      obtain ⟨e2, he2, hv2⟩ := List.mem_map.mp hv
      exact ⟨e2, he2, by rw [hcveq, hv2]⟩

theorem cvInv_setCurrentVersionStatus (doc : Document) (now st : String)
    (h : cvInv doc) : cvInv (setCurrentVersionStatus now st doc) :=
  cvInv_transfer doc _ (vList_setCurrentVersionStatus doc now st)
    (setCurrentVersionStatus_cv doc now st) h

theorem cvInv_create (doc : Document) (now : String) (uid fu : Option String)
    (md : Option VersionMetadata) :
    cvInv (createNewDocumentVersion now uid fu md doc).1 := by
  have h1 := vList_create now uid fu md doc
  have h2 : (doc.current_version.getD 0 + 1) ∈
      vList (createNewDocumentVersion now uid fu md doc).1 := by
    rw [h1]; simp
  obtain ⟨e, he, hv⟩ := List.mem_map.mp h2
  right
  exact ⟨e, he, by rw [create_cv, hv]⟩

theorem cvInv_seed (doc : Document) (now : String) (h : cvInv doc) :
    cvInv (seedInitialVersionForDocument now doc).1 := by
  rcases seed_cases now doc with h1 | h1 | ⟨hn, h1⟩
  · simpa [h1] using h
  · simpa [h1] using h
  · rw [h1]
    right
    exact ⟨seedEntry doc, by simp [normalizeVersions], rfl⟩

theorem cvInv_approve (doc : Document) (now : String) (n : Int)
    (h : cvInv doc) : cvInv (approveVersion now n doc).1 := by
  rcases approve_cases now n doc with ⟨_, h1⟩ | ⟨idx, e, heq, h1⟩
  · simpa [h1] using h
  · obtain ⟨hmem, hp⟩ := findIdxEntry_eq_some heq
    have hev : e.v = n := by simpa using hp
    rw [h1]
    right
    have hv : n ∈ (setStatusAt "approved" (normalizeVersions doc) idx).map
        VersionEntry.v := by
      rw [setStatusAt_map_v]
      rw [← hev]
      exact List.mem_map_of_mem _ hmem
    obtain ⟨e2, he2, hv2⟩ := List.mem_map.mp hv
    exact ⟨e2, by simpa [normalizeVersions] using he2, by rw [hv2]⟩

theorem cvInv_reject (doc : Document) (now : String) (n : Int)
    (h : cvInv doc) : cvInv (rejectVersion now n doc).1 := by
  rcases reject_cases now n doc with ⟨_, h1⟩ | ⟨idx, e, heq, h1⟩
  · simpa [h1] using h
  · rw [h1]
    apply cvInv_recompute
    refine cvInv_transfer doc _ ?_ rfl h
    exact setStatusAt_map_v "rejected" (normalizeVersions doc) idx

theorem isEmpty_false_of_ne_nil {l : List VersionEntry} (h : l ≠ []) :
    l.isEmpty = false := by
  cases l with
  | nil => exact absurd rfl h
  | cons x xs => rfl

theorem lower_approved : jsToLower "approved" = "approved" := by decide

theorem lower_pending : jsToLower "pending" = "pending" := by decide

theorem lower_rejected : jsToLower "rejected" = "rejected" := by decide

theorem jsOrS_of_ne {s : String} (b : String) (h : s ≠ "") :
    jsOrS (some s) b = s := by
  simp [jsOrS, h]

theorem isApproved_of_status {e : VersionEntry} {s : String}
    (h : e.status = some s) : isApproved e = (jsToLower s == "approved") := by
  simp [isApproved, statusLower, h]

theorem isPending_of_status {e : VersionEntry} {s : String}
    (h : e.status = some s) : isPending e = (jsToLower s == "pending") := by
  simp [isPending, statusLower, h]

/-- Claim C4, counterexample to the claim as stated: recompute is a
lifecycle operation, and run on a document with a stale current_version
pointer and only a pending version it completes with a non-empty
collection whose entries do not include the current_version. -/
theorem C4_current_version_pointer_cex :
    normalizeVersions (recomputeDocumentFromVersions "t" cexDoc4) ≠ [] ∧
    ¬ cvInv (recomputeDocumentFromVersions "t" cexDoc4) := by
  decide

/-- Claim C4 (amended): every lifecycle operation preserves the pointer
invariant - if before the operation the document had an empty collection
or a current_version equal to the v of some entry, the same holds after
it; createNewDocumentVersion establishes the invariant unconditionally. -/
theorem C4_current_version_pointer :
    (∀ (doc : Document) (now : String) (uid fu : Option String)
        (md : Option VersionMetadata),
      cvInv (createNewDocumentVersion now uid fu md doc).1) ∧
    (∀ (doc : Document) (now : String), cvInv doc →
      cvInv (seedInitialVersionForDocument now doc).1) ∧
    (∀ (doc : Document) (now st : String), cvInv doc →
      cvInv (setCurrentVersionStatus now st doc)) ∧
    (∀ (doc : Document) (now : String), cvInv doc →
      cvInv (recomputeDocumentFromVersions now doc)) ∧
    (∀ (doc : Document) (now : String) (n : Int), cvInv doc →
      cvInv (approveVersion now n doc).1) ∧
    (∀ (doc : Document) (now : String) (n : Int), cvInv doc →
      cvInv (rejectVersion now n doc).1) :=
  ⟨fun doc now uid fu md => cvInv_create doc now uid fu md,
   fun doc now h => cvInv_seed doc now h,
   fun doc now st h => cvInv_setCurrentVersionStatus doc now st h,
   fun doc now h => cvInv_recompute doc now h,
   fun doc now n h => cvInv_approve doc now n h,
   fun doc now n h => cvInv_reject doc now n h⟩

/-- Witness for claim C4: the preservation theorem applied to a concrete
document satisfying the invariant, for recompute and for rejectVersion. -/
theorem C4_current_version_pointer_witness :
    cvInv (recomputeDocumentFromVersions "t" wDoc4) ∧
    cvInv (rejectVersion "t" 2 wDoc4).1 :=
  ⟨C4_current_version_pointer.2.2.2.1 wDoc4 "t" (by decide),
   C4_current_version_pointer.2.2.2.2.2 wDoc4 "t" 2 (by decide)⟩

/-- Claim C6, counterexample to the claim as stated: for a legacy stored
object without numeric v on a document whose own status is rejected (so
not approved), the synthesized entry carries status rejected, not the
claimed pending. -/
theorem C6_normalize_legacy_synthesis_cex :
    cexDoc6.status = some "rejected" ∧ cexDoc6.status ≠ some "approved" ∧
    (normalizeVersions cexDoc6).map VersionEntry.status =
      [some "rejected"] := by
  decide

/-- Claim C6 (amended): for a stored version field that is a single object
lacking a numeric v, normalizeVersions returns exactly one synthesized
entry whose v is current_version when positive and 1 otherwise, whose
status is the document status whenever that is present and non-empty
(pending otherwise), whose notes field is the string Initial import, and
whose payload fields are copied from the document. -/
theorem C6_normalize_legacy_synthesis (doc : Document)
    (h : doc.version = VersionField.objNoV) :
    normalizeVersions doc =
      [{ v := posOr1 doc.current_version
         file_url := doc.attach_file
         title := doc.title
         contents := doc.contents
         tags := doc.tags
         status := some (jsOrS doc.status "pending")
         notes := some "Initial import"
         created_at := some doc.created_at
         created_by := doc.user_id }] := by
  simp [normalizeVersions, h, synthEntry]

/-- Witness for claim C6: the amended theorem evaluated on a concrete
legacy document with approved status. -/
theorem C6_normalize_legacy_synthesis_witness :
    normalizeVersions wDoc6 =
      [{ v := 3, file_url := some "f6", title := some "T"
         contents := none, tags := none, status := some "approved"
         notes := some "Initial import", created_at := some ""
         created_by := none }] := by
  rw [C6_normalize_legacy_synthesis wDoc6 rfl]
  decide

/-- Claim C8: approveVersion and rejectVersion with a version number that
matches no entry in the normalized collection return an empty result and
leave the document entirely unchanged. -/
theorem C8_unknown_version_noop (doc : Document) (now : String) (n : Int)
    (h : ∀ e ∈ normalizeVersions doc, e.v ≠ n) :
    approveVersion now n doc = (doc, false) ∧
    rejectVersion now n doc = (doc, false) := by
  have hfind : findIdxEntry (fun x => x.v == n) (normalizeVersions doc) =
      none := by
    apply findIdxEntry_eq_none.mpr
    intro e he
    simp [h e he]
  constructor
  · simp [approveVersion, hfind]
  · simp [rejectVersion, hfind]

/-- Witness for claim C8: no version 7 exists on the concrete document, so
both moderation calls are no-ops returning an empty result. -/
theorem C8_unknown_version_noop_witness :
    approveVersion "t" 7 wDoc8 = (wDoc8, false) ∧
    rejectVersion "t" 7 wDoc8 = (wDoc8, false) :=
  C8_unknown_version_noop wDoc8 "t" 7 (by decide)

/-- Claim C10: when the stored version field is a single object that does
carry a numeric v, normalizeVersions returns exactly the one-element list
holding that object unchanged, synthesizing nothing. -/
theorem C10_normalize_numeric_object (doc : Document) (e : VersionEntry)
    (h : doc.version = VersionField.objWithV e) :
    normalizeVersions doc = [e] := by
  simp [normalizeVersions, h]

/-- Witness for claim C10 at a concrete document and entry. -/
theorem C10_normalize_numeric_object_witness :
    normalizeVersions wDoc10 = [wE10] :=
  C10_normalize_numeric_object wDoc10 wE10 rfl

/-- Claim C3, counterexample to the claim as stated, in two parts.
First: on a document exactly as the submission dialog creates it
(current_version 1), a single createNewDocumentVersion call assigns
version number 2, not 1.  Second: version numbers are reused across
lifecycle operations - on a document holding versions 1 and 2,
approveVersion(1) moves current_version back to 1 while both versions
remain, and the next createNewDocumentVersion assigns nextV =
current_version + 1 = 2, a number an existing version already carries,
leaving the collection with v list [1, 2, 2]. -/
theorem C3_monotonic_versioning_cex :
    (cexDoc3.current_version = some 1 ∧
      (runCreates cexDoc3 [{}]).2 = [2] ∧ ([2] : List Int) ≠ [1]) ∧
    (vList cexDoc3b = [1, 2] ∧
      (approveVersion "t" 1 cexDoc3b).1.current_version = some 1 ∧
      vList (approveVersion "t" 1 cexDoc3b).1 = [1, 2] ∧
      (createNewDocumentVersion "t2" none none none
          (approveVersion "t" 1 cexDoc3b).1).2 = 2 ∧
      (2 : Int) ∈ vList (approveVersion "t" 1 cexDoc3b).1 ∧
      vList (createNewDocumentVersion "t2" none none none
          (approveVersion "t" 1 cexDoc3b).1).1 = [1, 2, 2]) := by
  decide

/-- Claim C3 (amended): N consecutive createNewDocumentVersion calls
assign the consecutive numbers current_version+1 .. current_version+N in
creation order with no gaps, and those numbers are pairwise distinct;
they are exactly 1..N precisely when the document starts with no truthy
current_version.  No lifecycle operation removes or renumbers existing
version numbers (the old v list is a prefix of the new one).  The
never-reused part of the claim is false (see the counterexample:
moderation can move current_version backward, after which the next
created version reuses an existing number); the assigned numbers avoid
every existing version number only under the precondition that each
existing entry v is at most the starting current_version. -/
theorem C3_monotonic_versioning :
    (∀ (doc : Document) (calls : List CreateCall),
      (runCreates doc calls).2 =
        (List.range calls.length).map
          (fun i : Nat => doc.current_version.getD 0 + ((i : Int) + 1))) ∧
    (∀ (doc : Document) (calls : List CreateCall),
      doc.current_version.getD 0 = 0 →
      (runCreates doc calls).2 =
        (List.range calls.length).map (fun i : Nat => ((i : Int) + 1))) ∧
    (∀ (doc : Document) (calls : List CreateCall),
      (runCreates doc calls).2.Nodup) ∧
    (∀ (doc : Document) (calls : List CreateCall),
      (∀ e ∈ normalizeVersions doc, e.v ≤ doc.current_version.getD 0) →
      ∀ n ∈ (runCreates doc calls).2,
        ∀ e ∈ normalizeVersions doc, e.v ≠ n) ∧
    (∀ (doc : Document) (now : String) (uid fu : Option String)
        (md : Option VersionMetadata),
      vList doc <+: vList (createNewDocumentVersion now uid fu md doc).1) ∧
    (∀ (doc : Document) (now st : String),
      vList doc <+: vList (setCurrentVersionStatus now st doc)) ∧
    (∀ (doc : Document) (now : String),
      vList doc <+: vList (seedInitialVersionForDocument now doc).1) ∧
    (∀ (doc : Document) (now : String),
      vList doc <+: vList (recomputeDocumentFromVersions now doc)) ∧
    (∀ (doc : Document) (now : String) (n : Int),
      vList doc <+: vList (approveVersion now n doc).1) ∧
    (∀ (doc : Document) (now : String) (n : Int),
      vList doc <+: vList (rejectVersion now n doc).1) := by
  refine ⟨runCreates_assigned, ?_, ?_, ?_, ?_, ?_, ?_, ?_, ?_, ?_⟩
  · intro doc calls h0
    rw [runCreates_assigned, h0]
    simp
  · intro doc calls
    rw [runCreates_assigned]
    apply List.Nodup.map ?_ (List.nodup_range _)
    intro a b hab
    simp only at hab
    omega
  · intro doc calls hle n hn e he
    rw [runCreates_assigned] at hn
    obtain ⟨i, hi, hrfl⟩ := List.mem_map.mp hn
    have := hle e he
    omega
  · intro doc now uid fu md
    rw [vList_create]
    exact List.prefix_append _ _
  · intro doc now st
    rw [vList_setCurrentVersionStatus]
  · intro doc now
    exact vList_seed doc now
  · intro doc now
    rw [vList_recompute]
  · intro doc now n
    rw [vList_approve]
  · intro doc now n
    rw [vList_reject]

/-- Witness for claim C3: three consecutive creation calls against a fresh
document (no current_version) assign exactly the distinct numbers
1, 2, 3; and on a document whose existing v values 1 and 2 are at most
its current_version 2, the conditional part applies and the next
assigned number avoids every existing one. -/
theorem C3_monotonic_versioning_witness :
    (runCreates wDoc3 [{}, {}, {}]).2 = [1, 2, 3] ∧
    (runCreates wDoc3 [{}, {}, {}]).2.Nodup ∧
    (∀ n ∈ (runCreates cexDoc3b [{}]).2,
      ∀ e ∈ normalizeVersions cexDoc3b, e.v ≠ n) := by
  refine ⟨?_, ?_, ?_⟩
  · have h1 := C3_monotonic_versioning.2.1 wDoc3 [{}, {}, {}] (by decide)
    rw [h1]
    decide
  · exact C3_monotonic_versioning.2.2.1 wDoc3 [{}, {}, {}]
  · exact C3_monotonic_versioning.2.2.2.1 cexDoc3b [{}] (by decide)

/-- Claim C1, counterexample to the claim as stated: the single version is
approved with the highest v but has no file_url, and recompute sets
attach_file to the previous document file instead of the file of that
approved version. -/
theorem C1_recompute_priority_policy_cex :
    normalizeVersions cexDoc1 ≠ [] ∧
    (∀ e ∈ normalizeVersions cexDoc1,
      isApproved e = true ∧ e.file_url = none) ∧
    (recomputeDocumentFromVersions "t" cexDoc1).attach_file =
      some "old.pdf" := by
  decide

/-- Claim C1 (amended): on a non-empty normalized collection, recompute
follows the priority policy - some approved version: status approved and
current_version from the approved entry with the numerically highest v,
with attach_file from that entry when its file_url is non-empty and
unchanged otherwise; else some pending version: status pending with
current_version and attach_file unchanged; else status rejected with
current_version and attach_file unchanged. -/
theorem C1_recompute_priority_policy (doc : Document) (now : String)
    (hne : normalizeVersions doc ≠ []) : recomputePolicyP now doc := by
  unfold recomputePolicyP
  by_cases happ : (normalizeVersions doc).any isApproved
  · rw [if_pos happ]
    obtain ⟨e, he, hae⟩ := List.any_eq_true.mp happ
    cases hla : (sortDescByV ((normalizeVersions doc).filter isApproved)).head? with
    | none => exact absurd hae (by simp [latestApproved_none hla e he])
    | some la =>
      have hd := recompute_eq_of_ne_nil doc now hne
      rw [hla] at hd
      have hspec := latestApproved_spec hla
      refine ⟨by rw [hd], la, hspec.1, hspec.2.1, hspec.2.2, by rw [hd],
        by rw [hd]⟩
  · have hnola : ∀ la,
        (sortDescByV ((normalizeVersions doc).filter isApproved)).head? ≠
          some la := by
      intro la hla
      have hspec := latestApproved_spec hla
      exact absurd (List.any_eq_true.mpr ⟨la, hspec.1, hspec.2.1⟩) happ
    have hla : (sortDescByV ((normalizeVersions doc).filter isApproved)).head? =
        none := by
      cases hh : (sortDescByV ((normalizeVersions doc).filter isApproved)).head? with
      | none => rfl
      | some la => exact absurd hh (hnola la)
    have hd := recompute_eq_of_ne_nil doc now hne
    rw [hla] at hd
    rw [if_neg happ]
    by_cases hpen : (normalizeVersions doc).any isPending
    · rw [if_pos hpen]
      exact ⟨by rw [hd]; simp [hpen], by rw [hd], by rw [hd]⟩
    · rw [if_neg hpen]
      have hpf : (normalizeVersions doc).any isPending = false := by
        revert hpen
        cases (normalizeVersions doc).any isPending <;> simp
      exact ⟨by rw [hd]; simp [hpf], by rw [hd], by rw [hd]⟩

/-- Witness for claim C1: the amended policy theorem at a concrete
document with one approved and one newer pending version. -/
theorem C1_recompute_priority_policy_witness :
    normalizeVersions wDoc1 ≠ [] ∧ recomputePolicyP "t" wDoc1 :=
  ⟨by decide, C1_recompute_priority_policy wDoc1 "t" (by decide)⟩

/-- Claim C5, counterexample to the claim as stated: on a legacy document
with a file but no status, the entry seeding persists carries status
approved while the entry the normalizer would synthesize carries status
pending, so the two are not equal field for field. -/
theorem C5_seed_refines_normalizer_cex :
    normalizeVersions cexDoc5 = [] ∧
    truthyStr cexDoc5.attach_file = true ∧
    (seedInitialVersionForDocument "t" cexDoc5).2 = [seedEntry cexDoc5] ∧
    (seedEntry cexDoc5).status = some "approved" ∧
    (synthEntry cexDoc5).status = some "pending" := by
  decide

/-- Claim C5 (amended): for a legacy document with a truthy attach_file
and an empty normalized collection, seeding persists exactly one entry
which agrees with the entry the normalizer synthesis would build on every
field except status; the status defaults differ (approved for seeding,
pending for the normalizer) and the two entries are equal whenever the
document carries a truthy status. -/
theorem C5_seed_refines_normalizer (doc : Document) (now : String)
    (h1 : normalizeVersions doc = [])
    (h2 : truthyStr doc.attach_file = true) : seedSynthP now doc := by
  unfold seedSynthP
  have hseed : seedInitialVersionForDocument now doc =
      ({ doc with version := .arr [seedEntry doc]
                  current_version := some (seedEntry doc).v
                  updated_at := some now }, [seedEntry doc]) := by
    unfold seedInitialVersionForDocument
    dsimp only
    simp [h1, h2]
  refine ⟨by rw [hseed], by rw [hseed], rfl, rfl, rfl, rfl, rfl, rfl, rfl,
    rfl, rfl, rfl, ?_⟩
  intro ht
  have hs : jsOrS doc.status "approved" = jsOrS doc.status "pending" := by
    cases hst : doc.status with
    | none => rw [hst] at ht; simp [truthyStr] at ht
    | some s =>
      have hne : s ≠ "" := by
        rw [hst] at ht
        simpa [truthyStr] using ht
      rw [jsOrS_of_ne _ hne, jsOrS_of_ne _ hne]
  simp [seedEntry, synthEntry, hs]

/-- Witness for claim C5: the amended theorem applied to a legacy document
that carries a non-empty status, where the two entries fully agree. -/
theorem C5_seed_refines_normalizer_witness :
    normalizeVersions wDoc5 = [] ∧ truthyStr wDoc5.attach_file = true ∧
    seedSynthP "t" wDoc5 :=
  ⟨rfl, rfl, C5_seed_refines_normalizer wDoc5 "t" rfl rfl⟩

/-- Claim C9, counterexample to the claim as stated: a non-empty
collection whose only entry has a negative v and no current_version
match; the claim says the call selects the entry with the numerically
highest v and overwrites its status, but the source seeds its fallback
scan maximum with -1 and silently writes nothing. -/
theorem C9_set_current_status_frame_cex :
    normalizeVersions cexDoc9 ≠ [] ∧
    setCurrentVersionStatus "t" "approved" cexDoc9 = cexDoc9 ∧
    ∀ e ∈ normalizeVersions (setCurrentVersionStatus "t" "approved" cexDoc9),
      e.status ≠ some "approved" := by
  decide

/-- Claim C9 (amended): setCurrentVersionStatus is a silent no-op on an
empty collection, and also when no entry matches a truthy current_version
and every v is negative; otherwise it persists the collection with
exactly the selected entry status replaced (every other entry and every
other field untouched, document fields besides version and updated_at
unchanged), the selected entry matching current_version when a truthy
match exists and carrying the numerically highest v otherwise. -/
theorem C9_set_current_status_frame (doc : Document) (now st : String) :
    setStatusSpecP now st doc := by
  unfold setStatusSpecP
  refine ⟨?_, ?_, ?_⟩
  · intro h
    unfold setCurrentVersionStatus
    dsimp only
    simp [h]
  · intro hneg hnm
    have hsel : selectIdx doc (normalizeVersions doc) = none := by
      unfold selectIdx
      have hif : (if truthyInt doc.current_version then
          findMatchIdx (doc.current_version.getD 0) (normalizeVersions doc)
          else none) = none := by
        by_cases ht : truthyInt doc.current_version
        · rw [if_pos ht]
          apply findMatchIdx_eq_none.mpr
          intro e he hev
          exact hnm ⟨by simp [ht], e, he, hev⟩
        · rw [if_neg ht]
      rw [hif]
      exact fallbackScan_eq_none.mpr hneg
    unfold setCurrentVersionStatus
    dsimp only
    split
    · rfl
    · rw [hsel]
  · intro hne hsome
    have hie : (normalizeVersions doc).isEmpty = false :=
      isEmpty_false_of_ne_nil hne
    by_cases hm : truthyInt doc.current_version = true ∧
        ∃ e ∈ normalizeVersions doc, e.v = doc.current_version.getD 0
    · obtain ⟨ht, e, he, hev⟩ := hm
      have hfm : findMatchIdx (doc.current_version.getD 0)
          (normalizeVersions doc) ≠ none := by
        rw [Ne, findMatchIdx_eq_none]
        push_neg
        exact ⟨e, he, hev⟩
      obtain ⟨j, hj⟩ := Option.ne_none_iff_exists'.mp hfm
      obtain ⟨hjlt, hjv⟩ := findMatchIdx_eq_some hj
      have hsel : selectIdx doc (normalizeVersions doc) = some j := by
        unfold selectIdx
        rw [if_pos ht, hj]
      refine ⟨j, hjlt, ?_, ?_⟩
      · unfold setCurrentVersionStatus
        dsimp only
        simp [hie, hsel]
      · rw [if_pos ⟨ht, e, he, hev⟩]
        exact hjv
    · have hnonneg : ∃ e ∈ normalizeVersions doc, 0 ≤ e.v :=
        hsome.resolve_left hm
      have hif : (if truthyInt doc.current_version then
          findMatchIdx (doc.current_version.getD 0) (normalizeVersions doc)
          else none) = none := by
        by_cases ht : truthyInt doc.current_version
        · rw [if_pos ht]
          apply findMatchIdx_eq_none.mpr
          intro e he hev
          exact hm ⟨ht, e, he, hev⟩
        · rw [if_neg ht]
      have hfb : fallbackScan (normalizeVersions doc) (-1) ≠ none := by
        rw [Ne, fallbackScan_eq_none]
        push_neg
        obtain ⟨e, he, h0⟩ := hnonneg
        exact ⟨e, he, by omega⟩
      obtain ⟨j, hj⟩ := Option.ne_none_iff_exists'.mp hfb
      obtain ⟨hjlt, hgt, hmax⟩ := fallbackScan_eq_some hj
      have hsel : selectIdx doc (normalizeVersions doc) = some j := by
        unfold selectIdx
        rw [hif]
        exact hj
      refine ⟨j, hjlt, ?_, ?_⟩
      · unfold setCurrentVersionStatus
        dsimp only
        simp [hie, hsel]
      · rw [if_neg hm]
        exact hmax

/-- Witness for claim C9: the amended theorem applied to a concrete
document whose current_version matches its second entry; the write
replaces exactly that entry status. -/
theorem C9_set_current_status_frame_witness :
    ∃ i, ∃ hi : i < (normalizeVersions wDoc9).length,
      setCurrentVersionStatus "t" "rejected" wDoc9 =
        { wDoc9 with
            version := .arr (setStatusAt "rejected" (normalizeVersions wDoc9) i)
            updated_at := some "t" } ∧
      (if truthyInt wDoc9.current_version = true ∧
          ∃ e ∈ normalizeVersions wDoc9, e.v = wDoc9.current_version.getD 0
       then ((normalizeVersions wDoc9).get ⟨i, hi⟩).v =
              wDoc9.current_version.getD 0
       else ∀ e ∈ normalizeVersions wDoc9,
              e.v ≤ ((normalizeVersions wDoc9).get ⟨i, hi⟩).v) :=
  (C9_set_current_status_frame wDoc9 "t" "rejected").2.2 (by decide)
    (Or.inl (by decide))

/-- Claim C2, counterexample to the claim as stated: both versions are
approved, the document points at version 2 whose file is f2, and version
1 has no file_url; rejecting version 2 falls back to version 1 for status
and current_version, but attach_file stays f2 instead of becoming the
file_url of version 1. -/
theorem C2_rejection_fallback_cex :
    normalizeVersions cexDoc2 = [cexE1, cexE2] ∧
    cexE1.v = 1 ∧ cexE1.status = some "approved" ∧
    cexE2.v = 2 ∧ cexE2.status = some "approved" ∧
    cexDoc2.current_version = some 2 ∧
    cexE1.file_url = none ∧
    (rejectVersion "t" 2 cexDoc2).1.current_version = some 1 ∧
    (rejectVersion "t" 2 cexDoc2).1.status = some "approved" ∧
    (rejectVersion "t" 2 cexDoc2).1.attach_file = some "f2" := by
  decide

/-- Claim C2 (amended): on a document whose collection is exactly
a version 1 and a version 2 both approved, with current_version 2,
rejectVersion(2) leaves current_version 1 and status approved, and sets
attach_file to the file_url of version 1 when that is non-empty,
keeping the previous attach_file otherwise. -/
theorem C2_rejection_fallback (doc : Document) (e1 e2 : VersionEntry)
    (now : String)
    (hvs : normalizeVersions doc = [e1, e2])
    (h1v : e1.v = 1) (h1s : e1.status = some "approved")
    (h2v : e2.v = 2) (h2s : e2.status = some "approved")
    (hcv : doc.current_version = some 2) :
    (rejectVersion now 2 doc).1.current_version = some 1 ∧
    (rejectVersion now 2 doc).1.status = some "approved" ∧
    (rejectVersion now 2 doc).1.attach_file =
      jsOrOpt e1.file_url doc.attach_file := by
  have hfind : findIdxEntry (fun x => x.v == (2 : Int))
      (normalizeVersions doc) = some (1, e2) := by
    rw [hvs]
    norm_num [findIdxEntry, h1v, h2v]
  rcases reject_cases now 2 doc with ⟨hfnone, _⟩ | ⟨idx, e, heq, h⟩
  · rw [hfind] at hfnone
    simp at hfnone
  · rw [hfind] at heq
    have hpair : (1, e2) = (idx, e) := Option.some.inj heq
    obtain ⟨hidx, hee⟩ := Prod.mk.injEq 1 e2 idx e |>.mp hpair
    subst hidx
    subst hee
    rw [hvs] at h
    have hset : setStatusAt "rejected" [e1, e2] 1 =
        [e1, { e2 with status := some "rejected" }] := rfl
    rw [hset] at h
    have hnd2 : normalizeVersions
        { doc with
            version := .arr [e1, { e2 with status := some "rejected" }]
            updated_at := some now } =
        [e1, { e2 with status := some "rejected" }] := rfl
    have hne2 : normalizeVersions
        { doc with
            version := .arr [e1, { e2 with status := some "rejected" }]
            updated_at := some now } ≠ [] := by
      rw [hnd2]
      simp
    have ha1 : isApproved e1 = true := by
      rw [isApproved_of_status h1s]
      decide
    have ha2r : isApproved { e2 with status := some "rejected" } = false := by
      rw [isApproved_of_status (s := "rejected") rfl]
      decide
    have hla : (sortDescByV ((normalizeVersions
        { doc with
            version := .arr [e1, { e2 with status := some "rejected" }]
            updated_at := some now }).filter isApproved)).head? =
        some e1 := by
      rw [hnd2]
      simp only [List.filter_cons, ha1, ha2r, List.filter_nil]
      rfl
    have hd := recompute_eq_of_ne_nil
      { doc with
          version := .arr [e1, { e2 with status := some "rejected" }]
          updated_at := some now } now hne2
    rw [hla] at hd
    refine ⟨?_, ?_, ?_⟩
    · rw [h]
      show (recomputeDocumentFromVersions now _).current_version = some 1
      simp [hd, h1v]
    · rw [h]
      show (recomputeDocumentFromVersions now _).status = some "approved"
      simp [hd]
    · rw [h]
      show (recomputeDocumentFromVersions now _).attach_file =
        jsOrOpt e1.file_url doc.attach_file
      simp [hd]

/-- Witness for claim C2: the amended theorem at a concrete document whose
version 1 has a non-empty file, so attach_file moves back to it. -/
theorem C2_rejection_fallback_witness :
    (rejectVersion "t" 2 wDoc2).1.current_version = some 1 ∧
    (rejectVersion "t" 2 wDoc2).1.status = some "approved" ∧
    (rejectVersion "t" 2 wDoc2).1.attach_file =
      jsOrOpt wE1.file_url wDoc2.attach_file :=
  C2_rejection_fallback wDoc2 wE1 wE2 "t" rfl rfl rfl rfl rfl rfl

/-- Claim C7: recompute is idempotent on the aggregate fields - running it
twice consecutively with no intervening version mutation gives the same
status, current_version and attach_file after the second run as after the
first, for every document (including legacy ones whose synthesized entry
feeds back the updated aggregate fields). -/
theorem C7_recompute_idempotent (doc : Document) (now1 now2 : String) :
    (recomputeDocumentFromVersions now2
        (recomputeDocumentFromVersions now1 doc)).status =
      (recomputeDocumentFromVersions now1 doc).status ∧
    (recomputeDocumentFromVersions now2
        (recomputeDocumentFromVersions now1 doc)).current_version =
      (recomputeDocumentFromVersions now1 doc).current_version ∧
    (recomputeDocumentFromVersions now2
        (recomputeDocumentFromVersions now1 doc)).attach_file =
      (recomputeDocumentFromVersions now1 doc).attach_file := by
  by_cases he : normalizeVersions doc = []
  · rw [recompute_of_empty doc now1 he, recompute_of_empty doc now2 he]
    exact ⟨rfl, rfl, rfl⟩
  by_cases hno : doc.version = VersionField.objNoV
  case neg =>
    have hnd1 : normalizeVersions (recomputeDocumentFromVersions now1 doc) =
        normalizeVersions doc := normalize_recompute_of_not_objNoV doc now1 hno
    have hne1 : normalizeVersions (recomputeDocumentFromVersions now1 doc) ≠
        [] := by rw [hnd1]; exact he
    have hd1 := recompute_eq_of_ne_nil doc now1 he
    have hd2 := recompute_eq_of_ne_nil
      (recomputeDocumentFromVersions now1 doc) now2 hne1
    rw [hnd1] at hd2
    cases hla : (sortDescByV ((normalizeVersions doc).filter isApproved)).head? with
    | some la =>
      rw [hla] at hd1 hd2
      refine ⟨?_, ?_, ?_⟩
      · rw [hd2]; simp [hd1]
      · rw [hd2]; simp [hd1]
      · rw [hd2]; simp [hd1, jsOrOpt_absorb]
    | none =>
      rw [hla] at hd1 hd2
      refine ⟨?_, ?_, ?_⟩
      · rw [hd2]; simp [hd1]
      · rw [hd2]
      · rw [hd2]
  case pos =>
    have hnd : normalizeVersions doc = [synthEntry doc] :=
      normalize_objNoV doc hno
    have hd1 := recompute_eq_of_ne_nil doc now1 he
    by_cases happ : isApproved (synthEntry doc) = true
    · have hla : (sortDescByV
          ((normalizeVersions doc).filter isApproved)).head? =
          some (synthEntry doc) := by
        rw [hnd]
        simp only [List.filter_cons, happ, List.filter_nil, if_true]
        rfl
      rw [hla] at hd1
      set d1 := recomputeDocumentFromVersions now1 doc with hd1def
      have hv1 : d1.version = VersionField.objNoV := by rw [hd1]; exact hno
      have hcv1 : d1.current_version = some (synthEntry doc).v := by rw [hd1]
      have hatt1 : d1.attach_file = doc.attach_file := by
        rw [hd1]
        show jsOrOpt (synthEntry doc).file_url doc.attach_file =
          doc.attach_file
        have hfe : (synthEntry doc).file_url = doc.attach_file := rfl
        rw [hfe, jsOrOpt_self]
      have hst1 : d1.status = some "approved" := by rw [hd1]
      have hnd2 : normalizeVersions d1 = [synthEntry d1] :=
        normalize_objNoV d1 hv1
      have hne2 : normalizeVersions d1 ≠ [] := by rw [hnd2]; simp
      have hsst : (synthEntry d1).status = some "approved" := by
        show some (jsOrS d1.status "pending") = some "approved"
        rw [hst1]
        decide
      have happ2 : isApproved (synthEntry d1) = true := by
        rw [isApproved_of_status hsst]
        decide
      have hla2 : (sortDescByV
          ((normalizeVersions d1).filter isApproved)).head? =
          some (synthEntry d1) := by
        rw [hnd2]
        simp only [List.filter_cons, happ2, List.filter_nil, if_true]
        rfl
      have hd2 := recompute_eq_of_ne_nil d1 now2 hne2
      rw [hla2] at hd2
      have hsv : (synthEntry d1).v = (synthEntry doc).v := by
        show posOr1 d1.current_version = (synthEntry doc).v
        rw [hcv1]
        show posOr1 (some (posOr1 doc.current_version)) =
          posOr1 doc.current_version
        exact posOr1_posOr1 doc.current_version
      have hsf : (synthEntry d1).file_url = doc.attach_file := hatt1
      refine ⟨?_, ?_, ?_⟩
      · rw [hd2]; simp [hst1]
      · rw [hd2]; simp [hsv, hcv1]
      · rw [hd2]; simp [hsf, hatt1, jsOrOpt_self]
    · have happf : isApproved (synthEntry doc) = false := by
        revert happ
        cases isApproved (synthEntry doc) <;> simp
      have hla : (sortDescByV
          ((normalizeVersions doc).filter isApproved)).head? = none := by
        rw [hnd]
        simp only [List.filter_cons, happf, List.filter_nil,
          Bool.false_eq_true, if_false]
        rfl
      rw [hla] at hd1
      set d1 := recomputeDocumentFromVersions now1 doc with hd1def
      have hv1 : d1.version = VersionField.objNoV := by rw [hd1]; exact hno
      have hcv1 : d1.current_version = doc.current_version := by rw [hd1]
      have hatt1 : d1.attach_file = doc.attach_file := by rw [hd1]
      have hst1 : d1.status =
          some (if (normalizeVersions doc).any isPending
                then "pending" else "rejected") := by rw [hd1]
      have hnd2 : normalizeVersions d1 = [synthEntry d1] :=
        normalize_objNoV d1 hv1
      have hne2 : normalizeVersions d1 ≠ [] := by rw [hnd2]; simp
      by_cases hpen : isPending (synthEntry doc) = true
      · have hanyT : (normalizeVersions doc).any isPending = true := by
          rw [hnd]
          simp [hpen]
        have hst1p : d1.status = some "pending" := by
          rw [hst1, hanyT]
          rfl
        have hsst : (synthEntry d1).status = some "pending" := by
          show some (jsOrS d1.status "pending") = some "pending"
          rw [hst1p]
          decide
        have happ2 : isApproved (synthEntry d1) = false := by
          rw [isApproved_of_status hsst]
          decide
        have hpen2 : isPending (synthEntry d1) = true := by
          rw [isPending_of_status hsst]
          decide
        have hla2 : (sortDescByV
            ((normalizeVersions d1).filter isApproved)).head? = none := by
          rw [hnd2]
          simp only [List.filter_cons, happ2, List.filter_nil,
            Bool.false_eq_true, if_false]
          rfl
        have hany2 : (normalizeVersions d1).any isPending = true := by
          rw [hnd2]
          simp [hpen2]
        have hd2 := recompute_eq_of_ne_nil d1 now2 hne2
        rw [hla2] at hd2
        refine ⟨?_, ?_, ?_⟩
        · rw [hd2]; simp [hany2, hst1p]
        · rw [hd2]
        · rw [hd2]
      · have hpenf : isPending (synthEntry doc) = false := by
          revert hpen
          cases isPending (synthEntry doc) <;> simp
        have hanyF : (normalizeVersions doc).any isPending = false := by
          rw [hnd]
          simp [hpenf]
        have hst1r : d1.status = some "rejected" := by
          rw [hst1, hanyF]
          rfl
        have hsst : (synthEntry d1).status = some "rejected" := by
          show some (jsOrS d1.status "pending") = some "rejected"
          rw [hst1r]
          decide
        have happ2 : isApproved (synthEntry d1) = false := by
          rw [isApproved_of_status hsst]
          decide
        have hpen2 : isPending (synthEntry d1) = false := by
          rw [isPending_of_status hsst]
          decide
        have hla2 : (sortDescByV
            ((normalizeVersions d1).filter isApproved)).head? = none := by
          rw [hnd2]
          simp only [List.filter_cons, happ2, List.filter_nil,
            Bool.false_eq_true, if_false]
          rfl
        have hany2 : (normalizeVersions d1).any isPending = false := by
          rw [hnd2]
          simp [hpen2]
        have hd2 := recompute_eq_of_ne_nil d1 now2 hne2
        rw [hla2] at hd2
        refine ⟨?_, ?_, ?_⟩
        · rw [hd2]; simp [hany2, hst1r]
        · rw [hd2]
        · rw [hd2]

end DocStore
